import Mathlib

/-!
Verification development for the vrc-log-renamer core engine.

The Rust sources verified here are `src/application/src/config.rs`
(template parsing/serialization) and `src/application/src/main.rs`
(literal placeholder substitution, timestamp resolution, file
relocation).  Third-party library behaviour that the code relies on
(chrono's `StrftimeItems` tokenizer and fixed-format parser as of the
0.4.2x line this crate builds against, the `regex` crate's match
semantics for one concrete pattern, Rust `std::fs` primitives) is
embedded explicitly; every such boundary is marked in the doc comment
of the corresponding definition.
-/

set_option maxRecDepth 10000

/-- Padding mode of a numeric field, chrono `format::Pad`. -/
inductive Pad where
  | none
  | zero
  | space
deriving DecidableEq, Repr

/-- Numeric field kinds, chrono `format::Numeric`.  `Internal` stands for
chrono's private `InternalNumeric` (never produced by the strftime
tokenizer). -/
inductive Numeric where
  | Year
  | YearDiv100
  | YearMod100
  | IsoYear
  | IsoYearDiv100
  | IsoYearMod100
  | Month
  | Day
  | WeekFromSun
  | WeekFromMon
  | IsoWeek
  | NumDaysFromSun
  | WeekdayFromMon
  | Ordinal
  | Hour
  | Hour12
  | Minute
  | Second
  | Nanosecond
  | Timestamp
  | Internal
deriving DecidableEq, Repr

/-- Kinds wrapped by chrono's `Fixed::Internal(InternalFixed)` that can be
produced by the strftime tokenizer. -/
inductive InternalFixedKind where
  | TimezoneOffsetPermissive
  | Nanosecond3NoDot
  | Nanosecond6NoDot
  | Nanosecond9NoDot
deriving DecidableEq, Repr

/-- Fixed-format field kinds, chrono `format::Fixed` (0.4.2x variant set,
matching the exhaustive `match` in `pattern_to_string`). -/
inductive Fixed where
  | ShortMonthName
  | LongMonthName
  | ShortWeekdayName
  | LongWeekdayName
  | LowerAmPm
  | UpperAmPm
  | Nanosecond
  | Nanosecond3
  | Nanosecond6
  | Nanosecond9
  | TimezoneName
  | TimezoneOffsetColon
  | TimezoneOffsetColonZ
  | TimezoneOffset
  | TimezoneOffsetZ
  | RFC2822
  | RFC3339
  | Internal (k : InternalFixedKind)
deriving DecidableEq, Repr

/-- Template items, chrono `format::Item`.  Borrowed and owned literal and
space chunks are kept separate exactly as in chrono, because
`parse_pattern` converts between them. -/
inductive Item where
  | Literal (s : List Char)
  | OwnedLiteral (s : List Char)
  | Space (s : List Char)
  | OwnedSpace (s : List Char)
  | Numeric (n : Numeric) (p : Pad)
  | Fixed (f : Fixed)
  | Error
deriving DecidableEq, Repr

/-- Rust `char::is_whitespace`: the Unicode `White_Space` property. -/
def rustWhitespace (c : Char) : Bool :=
  (0x09 ≤ c.toNat && c.toNat ≤ 0x0D) || c.toNat = 0x20 || c.toNat = 0x85 ||
    c.toNat = 0xA0 || c.toNat = 0x1680 ||
    (0x2000 ≤ c.toNat && c.toNat ≤ 0x200A) || c.toNat = 0x2028 ||
    c.toNat = 0x2029 || c.toNat = 0x202F || c.toNat = 0x205F ||
    c.toNat = 0x3000

/-- Pad override characters recognized after `%`, chrono `StrftimeItems`. -/
def padOf (c : Char) : Option Pad :=
  if c = '-' then some Pad.none
  else if c = '0' then some Pad.zero
  else if c = '_' then some Pad.space
  else none

/-- Core specifier table of chrono's `StrftimeItems` tokenizer: given the
specifier character and the remaining input, returns the produced items
(head plus reconstructed queue for compound specifiers such as `%D`) and
the number of characters consumed, the specifier character included. -/
def coreSpec : Char → List Char → List Item × Nat
  | 'A', _ => ([.Fixed .LongWeekdayName], 1)
  | 'B', _ => ([.Fixed .LongMonthName], 1)
  | 'C', _ => ([.Numeric .YearDiv100 .zero], 1)
  | 'D', _ =>
    ([.Numeric .Month .zero, .Literal ['/'], .Numeric .Day .zero,
      .Literal ['/'], .Numeric .YearMod100 .zero], 1)
  | 'F', _ =>
    ([.Numeric .Year .zero, .Literal ['-'], .Numeric .Month .zero,
      .Literal ['-'], .Numeric .Day .zero], 1)
  | 'G', _ => ([.Numeric .IsoYear .zero], 1)
  | 'H', _ => ([.Numeric .Hour .zero], 1)
  | 'I', _ => ([.Numeric .Hour12 .zero], 1)
  | 'M', _ => ([.Numeric .Minute .zero], 1)
  | 'P', _ => ([.Fixed .LowerAmPm], 1)
  | 'R', _ => ([.Numeric .Hour .zero, .Literal [':'], .Numeric .Minute .zero], 1)
  | 'S', _ => ([.Numeric .Second .zero], 1)
  | 'T', _ =>
    ([.Numeric .Hour .zero, .Literal [':'], .Numeric .Minute .zero,
      .Literal [':'], .Numeric .Second .zero], 1)
  | 'U', _ => ([.Numeric .WeekFromSun .zero], 1)
  | 'V', _ => ([.Numeric .IsoWeek .zero], 1)
  | 'W', _ => ([.Numeric .WeekFromMon .zero], 1)
  | 'X', _ =>
    ([.Numeric .Hour .zero, .Literal [':'], .Numeric .Minute .zero,
      .Literal [':'], .Numeric .Second .zero], 1)
  | 'Y', _ => ([.Numeric .Year .zero], 1)
  | 'Z', _ => ([.Fixed .TimezoneName], 1)
  | 'a', _ => ([.Fixed .ShortWeekdayName], 1)
  | 'b', _ => ([.Fixed .ShortMonthName], 1)
  | 'h', _ => ([.Fixed .ShortMonthName], 1)
  | 'c', _ =>
    ([.Fixed .ShortWeekdayName, .Space [' '], .Fixed .ShortMonthName,
      .Space [' '], .Numeric .Day .space, .Space [' '],
      .Numeric .Hour .zero, .Literal [':'], .Numeric .Minute .zero,
      .Literal [':'], .Numeric .Second .zero, .Space [' '],
      .Numeric .Year .zero], 1)
  | 'd', _ => ([.Numeric .Day .zero], 1)
  | 'e', _ => ([.Numeric .Day .space], 1)
  | 'f', _ => ([.Numeric .Nanosecond .zero], 1)
  | 'g', _ => ([.Numeric .IsoYearMod100 .zero], 1)
  | 'j', _ => ([.Numeric .Ordinal .zero], 1)
  | 'k', _ => ([.Numeric .Hour .space], 1)
  | 'l', _ => ([.Numeric .Hour12 .space], 1)
  | 'm', _ => ([.Numeric .Month .zero], 1)
  | 'n', _ => ([.Space ['\n']], 1)
  | 'p', _ => ([.Fixed .UpperAmPm], 1)
  | 'r', _ =>
    ([.Numeric .Hour12 .zero, .Literal [':'], .Numeric .Minute .zero,
      .Literal [':'], .Numeric .Second .zero, .Space [' '],
      .Fixed .UpperAmPm], 1)
  | 's', _ => ([.Numeric .Timestamp .none], 1)
  | 't', _ => ([.Space ['\t']], 1)
  | 'u', _ => ([.Numeric .WeekdayFromMon .none], 1)
  | 'v', _ =>
    ([.Numeric .Day .space, .Literal ['-'], .Fixed .ShortMonthName,
      .Literal ['-'], .Numeric .Year .zero], 1)
  | 'w', _ => ([.Numeric .NumDaysFromSun .none], 1)
  | 'x', _ =>
    ([.Numeric .Month .zero, .Literal ['/'], .Numeric .Day .zero,
      .Literal ['/'], .Numeric .YearMod100 .zero], 1)
  | 'y', _ => ([.Numeric .YearMod100 .zero], 1)
  | 'z', _ => ([.Fixed .TimezoneOffset], 1)
  | '+', _ => ([.Fixed .RFC3339], 1)
  | ':', r =>
    match r with
    | [] => ([.Error], 1)
    | 'z' :: _ => ([.Fixed .TimezoneOffsetColon], 2)
    | _ :: _ => ([.Error], 2)
  | '.', r =>
    match r with
    | [] => ([.Error], 1)
    | '3' :: r2 =>
      match r2 with
      | [] => ([.Error], 2)
      | 'f' :: _ => ([.Fixed .Nanosecond3], 3)
      | _ :: _ => ([.Error], 3)
    | '6' :: r2 =>
      match r2 with
      | [] => ([.Error], 2)
      | 'f' :: _ => ([.Fixed .Nanosecond6], 3)
      | _ :: _ => ([.Error], 3)
    | '9' :: r2 =>
      match r2 with
      | [] => ([.Error], 2)
      | 'f' :: _ => ([.Fixed .Nanosecond9], 3)
      | _ :: _ => ([.Error], 3)
    | 'f' :: _ => ([.Fixed .Nanosecond], 2)
    | _ :: _ => ([.Error], 2)
  | '3', r =>
    match r with
    | [] => ([.Error], 1)
    | 'f' :: _ => ([.Fixed (.Internal .Nanosecond3NoDot)], 2)
    | _ :: _ => ([.Error], 2)
  | '6', r =>
    match r with
    | [] => ([.Error], 1)
    | 'f' :: _ => ([.Fixed (.Internal .Nanosecond6NoDot)], 2)
    | _ :: _ => ([.Error], 2)
  | '9', r =>
    match r with
    | [] => ([.Error], 1)
    | 'f' :: _ => ([.Fixed (.Internal .Nanosecond9NoDot)], 2)
    | _ :: _ => ([.Error], 2)
  | '%', _ => ([.Literal ['%']], 1)
  | _, _ => ([.Error], 1)

/-- Pad-override adjustment, chrono `StrftimeItems`: a pad modifier is only
legal on a single plain numeric item; otherwise the head item becomes
`Error` while an already-queued reconstruction tail is still emitted. -/
def applyPad (p : Pad) : List Item → List Item
  | [.Numeric n _] => [.Numeric n p]
  | _ :: tail => Item.Error :: tail
  | [] => [.Error]

/-- Specifier parsing after a `%`, chrono `StrftimeItems`: handles the
premature end of input, the `#` alternate marker (only `%#z` is legal)
and the `-`/`0`/`_` pad overrides.  Returns the items produced and the
number of input characters consumed after the `%`. -/
def specParse : List Char → List Item × Nat
  | [] => ([.Error], 0)
  | c :: r =>
    if c = '#' then
      match r with
      | [] => ([.Error], 1)
      | c2 :: _ =>
        if c2 = 'z' then ([.Fixed (.Internal .TimezoneOffsetPermissive)], 2)
        else ([.Error], 2)
    else
      match padOf c with
      | some p =>
        match r with
        | [] => ([.Error], 1)
        | c2 :: r2 =>
          let (its, n) := coreSpec c2 r2
          (applyPad p its, 1 + n)
      | Option.none => coreSpec c r

/-- Recursion core of the tokenizer.  The fuel argument only serves to
make the recursion structural (every step consumes at least one input
character, so `fuel = s.length` never runs out); `strftimeItems` below
always supplies enough fuel. -/
def strftimeGo : Nat → List Char → List Item
  | 0, _ => []
  | _ + 1, [] => []
  | fuel + 1, c :: rest =>
    if c = '%' then
      (specParse rest).1 ++ strftimeGo fuel (rest.drop (specParse rest).2)
    else if rustWhitespace c then
      .Space (c :: rest.takeWhile rustWhitespace) ::
        strftimeGo fuel (rest.dropWhile rustWhitespace)
    else
      .Literal (c :: rest.takeWhile (fun x => !rustWhitespace x && x ≠ '%')) ::
        strftimeGo fuel (rest.dropWhile (fun x => !rustWhitespace x && x ≠ '%'))

/-- The chrono `StrftimeItems` tokenizer (library boundary: chrono 0.4.2x,
the line this crate builds against): maximal whitespace runs become
`Space` items, maximal runs free of `%` and whitespace become `Literal`
items, and `%` starts a specifier. -/
def strftimeItems (s : List Char) : List Item :=
  strftimeGo s.length s

/-- The mapping in `config.rs::format_internal_format`: the only internal
fixed formats with a canonical spelling are the dot-less 3/6/9 digit
sub-second forms. -/
def format_internal_format : InternalFixedKind → Option (List Char)
  | .Nanosecond3NoDot => some ['%', '3', 'f']
  | .Nanosecond6NoDot => some ['%', '6', 'f']
  | .Nanosecond9NoDot => some ['%', '9', 'f']
  | .TimezoneOffsetPermissive => Option.none

/-- The per-item normalization in `config.rs::parse_pattern::own_strftime`:
literal and space chunks become owned, internal numeric fields and the
timezone-offset variants `%z`/`-Z` become `Error`, internal fixed fields
survive only when `format_internal_format` knows them. -/
def own_strftime : Item → Item
  | .Literal s => .OwnedLiteral s
  | .Space s => .OwnedSpace s
  | .OwnedLiteral s => .OwnedLiteral s
  | .OwnedSpace s => .OwnedSpace s
  | .Numeric n p =>
    match n with
    | .Internal => .Error
    | _ => .Numeric n p
  | .Fixed f =>
    match f with
    | .Internal k =>
      if (format_internal_format k).isSome then .Fixed (.Internal k) else .Error
    | .TimezoneOffset => .Error
    | .TimezoneOffsetZ => .Error
    | f => .Fixed f
  | .Error => .Error

/-- The template parser `config.rs::parse_pattern`: tokenize, normalize
each item, and reject the whole template when any item is `Error`. -/
def parse_pattern (s : List Char) : Option (List Item) :=
  let pattern := (strftimeItems s).map own_strftime
  if Item.Error ∈ pattern then Option.none else some pattern

/-- Specifier letter used by `config.rs::pattern_to_string` for each
numeric field (`Internal` has none).  This transcribes the source,
including its swapped letters for the four week/weekday fields. -/
def numericChar : Numeric → Option Char
  | .Year => some 'Y'
  | .YearDiv100 => some 'C'
  | .YearMod100 => some 'y'
  | .Month => some 'm'
  | .Day => some 'd'
  | .WeekFromSun => some 'w'
  | .WeekFromMon => some 'u'
  | .NumDaysFromSun => some 'U'
  | .WeekdayFromMon => some 'W'
  | .IsoYear => some 'G'
  | .IsoYearMod100 => some 'g'
  | .IsoWeek => some 'V'
  | .Ordinal => some 'j'
  | .IsoYearDiv100 => some 'g'
  | .Hour => some 'H'
  | .Hour12 => some 'I'
  | .Minute => some 'M'
  | .Second => some 'S'
  | .Nanosecond => some 'f'
  | .Timestamp => some 's'
  | .Internal => Option.none

/-- Pad-modifier character emitted by `config.rs::pattern_to_string`. -/
def padChar : Pad → Char
  | .none => '-'
  | .zero => '0'
  | .space => '_'

/-- Text emitted for one item by `config.rs::pattern_to_string`. -/
def itemChars : Item → Except String (List Char)
  | .Literal s => .ok s
  | .OwnedLiteral s => .ok s
  | .Space s => .ok s
  | .OwnedSpace s => .ok s
  | .Numeric n p =>
    match numericChar n with
    | Option.none => .error "internal format found"
    | some c => .ok ['%', padChar p, c]
  | .Fixed f =>
    match f with
    | .ShortMonthName => .ok ['%', 'b']
    | .LongMonthName => .ok ['%', 'B']
    | .ShortWeekdayName => .ok ['%', 'a']
    | .LongWeekdayName => .ok ['%', 'A']
    | .LowerAmPm => .ok ['%', 'P']
    | .UpperAmPm => .ok ['%', 'p']
    | .Nanosecond => .ok ['%', '.', 'f']
    | .Nanosecond3 => .ok ['%', '.', '3', 'f']
    | .Nanosecond6 => .ok ['%', '.', '6', 'f']
    | .Nanosecond9 => .ok ['%', '.', '9', 'f']
    | .TimezoneName => .ok ['%', 'Z']
    | .TimezoneOffsetColon => .ok ['%', ':', 'z']
    | .TimezoneOffset => .ok ['%', 'z']
    | .RFC2822 => .ok ['%', 'c']
    | .RFC3339 => .ok ['%', '+']
    | .TimezoneOffsetColonZ => .error "internal format found"
    | .TimezoneOffsetZ => .error "internal format found"
    | .Internal k =>
      match format_internal_format k with
      | some s => .ok s
      | Option.none => .error "internal format found"
  | .Error => .error "format error found"

/-- The template serializer `config.rs::pattern_to_string`: concatenates
the canonical text of every item, failing on the first item that has no
canonical form. -/
def pattern_to_string : List Item → Except String (List Char)
  | [] => .ok []
  | x :: rest => do
    let head ← itemChars x
    let tail ← pattern_to_string rest
    pure (head ++ tail)

instance {ε α : Type} [DecidableEq ε] [DecidableEq α] :
    DecidableEq (Except ε α) := fun a b =>
  match a, b with
  | .ok x, .ok y =>
    if h : x = y then .isTrue (by rw [h]) else .isFalse (by simp [h])
  | .error x, .error y =>
    if h : x = y then .isTrue (by rw [h]) else .isFalse (by simp [h])
  | .ok _, .error _ => .isFalse (by simp)
  | .error _, .ok _ => .isFalse (by simp)

/-- Split a character list at the first occurrence of `c` (mirrors Rust
`str::find`): `l = pre ++ rest`, `c` not in `pre`, `rest` starts with
`c`; `none` when `c` does not occur. -/
def breakAt (c : Char) : List Char → Option (List Char × List Char)
  | [] => Option.none
  | x :: xs =>
    if x = c then some ([], x :: xs)
    else
      match breakAt c xs with
      | Option.none => Option.none
      | some (pre, rest) => some (x :: pre, rest)

/-- Split a character list just after the first occurrence of `c`:
`l = a ++ b` with `a` ending in its only occurrence of `c` (mirrors
`pat.find('}').map(|x| x + 1)` in `process_lit`). -/
def breakAtIncl (c : Char) : List Char → Option (List Char × List Char)
  | [] => Option.none
  | x :: xs =>
    if x = c then some ([x], xs)
    else
      match breakAtIncl c xs with
      | Option.none => Option.none
      | some (a, b) => some (x :: a, b)

/-- Recursion core of the `loops` helper inside
`main.rs::MatchingIter::process_lit`: returns the text appended to the
builder and the leftover pattern at loop exit.  Fuel only makes the
recursion structural; every iteration consumes at least one character,
so `fuel = pat.length` suffices. -/
def loopsGo (f : List Char → Option (List Char)) :
    Nat → List Char → List Char × List Char
  | 0, pat => ([], pat)
  | fuel + 1, pat =>
    match breakAt '{' pat with
    | Option.none => ([], pat)
    | some (pre, rest) =>
      match breakAtIncl '}' rest with
      | Option.none => (pre, rest)
      | some (var, rest2) =>
        let piece := (f (var.drop 1 |>.dropLast)).getD var
        let (out, leftover) := loopsGo f fuel rest2
        (pre ++ piece ++ out, leftover)

/-- The literal-substitution pass `main.rs::MatchingIter::process_lit`:
replaces each brace-delimited occurrence by `f`'s answer (or keeps it
verbatim when `f` returns `none`), and returns `none` exactly when the
loop never advanced its pattern pointer (no `{` at all, or a leading `{`
with no later `}`), in which case the caller keeps the original item. -/
def process_lit (f : List Char → Option (List Char)) (patIn : List Char) :
    Option (List Char) :=
  match breakAt '{' patIn with
  | Option.none => Option.none
  | some (pre, rest) =>
    match breakAtIncl '}' rest with
    | Option.none => if pre.isEmpty then Option.none else some patIn
    | some (var, rest2) =>
      let piece := (f (var.drop 1 |>.dropLast)).getD var
      let (out, leftover) := loopsGo f rest2.length rest2
      some (pre ++ piece ++ out ++ leftover)

/-- Text a literal item renders to: `process_lit`'s result, or the input
itself when `process_lit` signals "unchanged" (`None`). -/
def litOutput (f : List Char → Option (List Char)) (s : List Char) :
    List Char :=
  (process_lit f s).getD s

/-- One step of `main.rs::MatchingIter::next`: literal chunks are passed
through `process_lit`, every other item is yielded untouched. -/
def renderItem (f : List Char → Option (List Char)) : Item → Item
  | .Literal s =>
    match process_lit f s with
    | Option.none => .Literal s
    | some t => .OwnedLiteral t
  | .OwnedLiteral s =>
    match process_lit f s with
    | Option.none => .OwnedLiteral s
    | some t => .OwnedLiteral t
  | other => other

/-- Modelled from the spec: recursion core of the claim's description of
literal rendering — scan to the next `{`; with a matching `}`, replace
the whole occurrence by the resolver's value, or emit it verbatim
(braces included) when the resolver declines; an unterminated `{` makes
the whole remainder ordinary literal text. -/
def renderLitGo (f : List Char → Option (List Char)) :
    Nat → List Char → List Char
  | 0, s => s
  | fuel + 1, s =>
    match breakAt '{' s with
    | Option.none => s
    | some (pre, rest) =>
      match breakAtIncl '}' rest with
      | Option.none => s
      | some (var, rest2) =>
        pre ++ (f (var.drop 1 |>.dropLast)).getD var ++ renderLitGo f fuel rest2

/-- Modelled from the spec: the claim's literal renderer. -/
def renderLitSpec (f : List Char → Option (List Char)) (s : List Char) :
    List Char :=
  renderLitGo f s.length s

theorem breakAt_append {c : Char} :
    ∀ {l pre rest : List Char}, breakAt c l = some (pre, rest) →
      l = pre ++ rest ∧ rest.length + pre.length = l.length := by
  intro l
  induction l with
  | nil => intro pre rest h; simp [breakAt] at h
  | cons x xs ih =>
    intro pre rest h
    by_cases hx : x = c
    · simp only [breakAt, if_pos hx, Option.some.injEq, Prod.mk.injEq] at h
      obtain ⟨h1, h2⟩ := h
      subst h1; subst h2
      simp
    · simp only [breakAt, if_neg hx] at h
      cases hb : breakAt c xs with
      | none => rw [hb] at h; exact Option.noConfusion h
      | some pr =>
        obtain ⟨pre', rest'⟩ := pr
        rw [hb] at h
        simp only [Option.some.injEq, Prod.mk.injEq] at h
        obtain ⟨h1, h2⟩ := h
        obtain ⟨e1, e2⟩ := ih hb
        subst h1; subst h2
        constructor
        · simp [← e1]
        · simp only [List.length_cons, ← e2]
          omega

theorem breakAtIncl_append {c : Char} :
    ∀ {l a b : List Char}, breakAtIncl c l = some (a, b) →
      l = a ++ b ∧ b.length + a.length = l.length ∧ 0 < a.length := by
  intro l
  induction l with
  | nil => intro a b h; simp [breakAtIncl] at h
  | cons x xs ih =>
    intro a b h
    by_cases hx : x = c
    · simp only [breakAtIncl, if_pos hx, Option.some.injEq, Prod.mk.injEq] at h
      obtain ⟨h1, h2⟩ := h
      subst h1; subst h2
      simp
    · simp only [breakAtIncl, if_neg hx] at h
      cases hb : breakAtIncl c xs with
      | none => rw [hb] at h; exact Option.noConfusion h
      | some pr =>
        obtain ⟨a', b'⟩ := pr
        rw [hb] at h
        simp only [Option.some.injEq, Prod.mk.injEq] at h
        obtain ⟨h1, h2⟩ := h
        obtain ⟨e1, e2, e3⟩ := ih hb
        subst h1; subst h2
        refine ⟨by simp [← e1], ?_, by simp⟩
        simp only [List.length_cons, ← e2]
        omega

theorem breakAt_eq_none {c : Char} :
    ∀ {l : List Char}, breakAt c l = Option.none ↔ c ∉ l := by
  intro l
  induction l with
  | nil => simp [breakAt]
  | cons x xs ih =>
    by_cases hx : x = c
    · simp [breakAt, hx]
    · cases hb : breakAt c xs with
      | none =>
        simp only [breakAt, if_neg hx, hb, List.mem_cons, not_or]
        exact iff_of_true trivial ⟨fun h => hx h.symm, ih.mp hb⟩
      | some pr =>
        obtain ⟨pre, rest⟩ := pr
        have hc : c ∈ xs := by
          by_contra hcn
          have := ih.mpr hcn
          rw [hb] at this
          exact Option.noConfusion this
        simp only [breakAt, if_neg hx, hb, List.mem_cons, not_or]
        exact iff_of_false (fun h => Option.noConfusion h)
          (fun h => h.2 hc)

theorem breakAtIncl_eq_none {c : Char} :
    ∀ {l : List Char}, breakAtIncl c l = Option.none ↔ c ∉ l := by
  intro l
  induction l with
  | nil => simp [breakAtIncl]
  | cons x xs ih =>
    by_cases hx : x = c
    · simp [breakAtIncl, hx]
    · cases hb : breakAtIncl c xs with
      | none =>
        simp only [breakAtIncl, if_neg hx, hb, List.mem_cons, not_or]
        exact iff_of_true trivial ⟨fun h => hx h.symm, ih.mp hb⟩
      | some pr =>
        obtain ⟨a, b⟩ := pr
        have hc : c ∈ xs := by
          by_contra hcn
          have := ih.mpr hcn
          rw [hb] at this
          exact Option.noConfusion this
        simp only [breakAtIncl, if_neg hx, hb, List.mem_cons, not_or]
        exact iff_of_false (fun h => Option.noConfusion h)
          (fun h => h.2 hc)

theorem renderLitGo_succ (f : List Char → Option (List Char))
    (fuel : Nat) (s : List Char) :
    renderLitGo f (fuel + 1) s =
      match breakAt '{' s with
      | Option.none => s
      | some (pre, rest) =>
        match breakAtIncl '}' rest with
        | Option.none => s
        | some (var, rest2) =>
          pre ++ (f (var.drop 1 |>.dropLast)).getD var ++
            renderLitGo f fuel rest2 := rfl

theorem renderLitGo_fuel (f : List Char → Option (List Char)) :
    ∀ fuel s, s.length ≤ fuel → renderLitGo f fuel s = renderLitSpec f s := by
  intro fuel
  induction fuel using Nat.strong_induction_on with
  | _ fuel ih =>
    intro s hs
    match fuel with
    | 0 =>
      have h0 : s = [] := List.length_eq_zero.mp (Nat.le_zero.mp hs)
      subst h0
      rfl
    | fuel + 1 =>
      rw [renderLitSpec]
      cases hlen : s.length with
      | zero =>
        rw [List.length_eq_zero] at hlen
        subst hlen
        rfl
      | succ m =>
        cases hb : breakAt '{' s with
        | none => simp only [renderLitGo, hb]
        | some pr =>
          obtain ⟨pre, rest⟩ := pr
          cases hbi : breakAtIncl '}' rest with
          | none => simp only [renderLitGo, hb, hbi]
          | some pr2 =>
            obtain ⟨var, rest2⟩ := pr2
            obtain ⟨_, e2⟩ := breakAt_append hb
            obtain ⟨_, e3, e4⟩ := breakAtIncl_append hbi
            have h1 : renderLitGo f fuel rest2 = renderLitSpec f rest2 :=
              ih fuel (Nat.lt_succ_self _) rest2 (by omega)
            have h2 : renderLitGo f m rest2 = renderLitSpec f rest2 :=
              ih m (by omega) rest2 (by omega)
            simp only [renderLitGo, hb, hbi]
            rw [h1, h2]

theorem loopsGo_eq_render (f : List Char → Option (List Char)) :
    ∀ fuel s, s.length ≤ fuel →
      (loopsGo f fuel s).1 ++ (loopsGo f fuel s).2 = renderLitGo f fuel s := by
  intro fuel
  induction fuel with
  | zero =>
    intro s hs
    simp [loopsGo, renderLitGo]
  | succ fuel ih =>
    intro s hs
    cases hb : breakAt '{' s with
    | none => simp only [loopsGo, renderLitGo, hb, List.nil_append]
    | some pr =>
      obtain ⟨pre, rest⟩ := pr
      cases hbi : breakAtIncl '}' rest with
      | none =>
        simp only [loopsGo, renderLitGo, hb, hbi]
        exact (breakAt_append hb).1.symm
      | some pr2 =>
        obtain ⟨var, rest2⟩ := pr2
        obtain ⟨_, e2⟩ := breakAt_append hb
        obtain ⟨_, e3, e4⟩ := breakAtIncl_append hbi
        have hrec := ih rest2 (by omega)
        simp only [loopsGo, renderLitGo, hb, hbi]
        rw [← hrec]
        simp

theorem litOutput_eq_spec (f : List Char → Option (List Char))
    (s : List Char) : litOutput f s = renderLitSpec f s := by
  rw [litOutput, process_lit, renderLitSpec]
  cases hlen : s.length with
  | zero =>
    rw [List.length_eq_zero] at hlen
    subst hlen
    rfl
  | succ m =>
    cases hb : breakAt '{' s with
    | none => simp only [renderLitGo, hb, Option.getD_none]
    | some pr =>
      obtain ⟨pre, rest⟩ := pr
      cases hbi : breakAtIncl '}' rest with
      | none =>
        simp only [renderLitGo, hb, hbi]
        cases pre with
        | nil => simp
        | cons a as => simp
      | some pr2 =>
        obtain ⟨var, rest2⟩ := pr2
        obtain ⟨_, e2⟩ := breakAt_append hb
        obtain ⟨_, e3, e4⟩ := breakAtIncl_append hbi
        have hcomb := loopsGo_eq_render f rest2.length rest2 (Nat.le_refl _)
        have hfuel : renderLitGo f rest2.length rest2 = renderLitSpec f rest2 :=
          renderLitGo_fuel f rest2.length rest2 (Nat.le_refl _)
        have hfuel2 : renderLitGo f m rest2 = renderLitSpec f rest2 :=
          renderLitGo_fuel f m rest2 (by omega)
        simp only [renderLitGo, hb, hbi, Option.getD_some]
        rw [hfuel2, ← hfuel, ← hcomb]
        simp

theorem breakAt_head_split {c : Char} :
    ∀ {pre : List Char}, c ∉ pre → ∀ xs,
      breakAt c (pre ++ c :: xs) = some (pre, c :: xs) := by
  intro pre
  induction pre with
  | nil => intro _ xs; simp [breakAt]
  | cons a as ih =>
    intro h xs
    simp only [List.mem_cons, not_or] at h
    have hne : ¬a = c := fun hc => h.1 hc.symm
    rw [List.cons_append]
    simp only [breakAt, if_neg hne, ih h.2 xs]

theorem breakAtIncl_head_split {c : Char} :
    ∀ {a : List Char}, c ∉ a → ∀ b,
      breakAtIncl c (a ++ c :: b) = some (a ++ [c], b) := by
  intro a
  induction a with
  | nil => intro _ b; simp [breakAtIncl]
  | cons x xs ih =>
    intro h b
    simp only [List.mem_cons, not_or] at h
    have hne : ¬x = c := fun hc => h.1 hc.symm
    rw [List.cons_append]
    simp only [breakAtIncl, if_neg hne, ih h.2 b]
    simp

/-- C3: rendering a legal template never fails and treats placeholders as
claimed.  (1) the literal pass of `MatchingIter` (the total function
`litOutput`) coincides with the spec's description `renderLitSpec` for
every resolver and literal; (2) a well-formed brace occurrence is
replaced by the resolver's value, and kept verbatim — braces included —
when the resolver returns `none` (unknown namespaces included, since the
resolver is arbitrary here); (3) text without `{` is emitted unchanged;
(4) an unterminated `{` is emitted as ordinary literal text, not an
error; (5) the item mapping introduces no `Error` item, so rendering a
legal (no-`Invalid`) sequence cannot fail regardless of the resolver. -/
theorem c3_render_never_fails :
    (∀ (f : List Char → Option (List Char)) s,
      litOutput f s = renderLitSpec f s) ∧
    (∀ (f : List Char → Option (List Char)) pre n suffix,
      '{' ∉ pre → '}' ∉ n →
      litOutput f (pre ++ '{' :: (n ++ '}' :: suffix)) =
        pre ++ ((f n).getD ('{' :: (n ++ ['}']))) ++ litOutput f suffix) ∧
    (∀ (f : List Char → Option (List Char)) s, '{' ∉ s →
      litOutput f s = s) ∧
    (∀ (f : List Char → Option (List Char)) pre rest,
      '{' ∉ pre → '}' ∉ rest →
      litOutput f (pre ++ '{' :: rest) = pre ++ '{' :: rest) ∧
    (∀ (f : List Char → Option (List Char)) (it : Item),
      it ≠ Item.Error → renderItem f it ≠ Item.Error) := by
  refine ⟨litOutput_eq_spec, ?_, ?_, ?_, ?_⟩
  · intro f pre n suffix hpre hn
    rw [litOutput_eq_spec, litOutput_eq_spec, renderLitSpec]
    have hlen : (pre ++ '{' :: (n ++ '}' :: suffix)).length =
        (pre.length + n.length + suffix.length + 1) + 1 := by
      simp
      omega
    have hn' : '}' ∉ '{' :: n := by
      simp only [List.mem_cons, not_or]
      exact ⟨by decide, hn⟩
    have hb2 : breakAtIncl '}' ('{' :: (n ++ '}' :: suffix)) =
        some ('{' :: (n ++ ['}']), suffix) := by
      have := breakAtIncl_head_split hn' suffix
      simpa using this
    rw [hlen, renderLitGo_succ]
    rw [breakAt_head_split hpre]
    simp only [hb2, List.drop_succ_cons, List.drop_zero, List.dropLast_concat]
    rw [renderLitGo_fuel f _ suffix (by omega)]
  · intro f s hs
    rw [litOutput_eq_spec, renderLitSpec]
    cases hlen : s.length with
    | zero =>
      rw [List.length_eq_zero] at hlen
      subst hlen
      rfl
    | succ m =>
      simp only [renderLitGo, breakAt_eq_none.mpr hs]
  · intro f pre rest hpre hrest
    rw [litOutput_eq_spec, renderLitSpec]
    cases hlen : (pre ++ '{' :: rest).length with
    | zero => simp at hlen
    | succ m =>
      have hb2 : breakAtIncl '}' ('{' :: rest) = Option.none := by
        rw [breakAtIncl_eq_none]
        simp only [List.mem_cons, not_or]
        exact ⟨by decide, hrest⟩
      simp only [renderLitGo, breakAt_head_split hpre, hb2]
  · intro f it hit
    cases it with
    | Literal s =>
      cases h : process_lit f s <;> simp [renderItem, h]
    | OwnedLiteral s =>
      cases h : process_lit f s <;> simp [renderItem, h]
    | Space s => simp [renderItem]
    | OwnedSpace s => simp [renderItem]
    | Numeric n p => simp [renderItem]
    | Fixed fx => simp [renderItem]
    | Error => exact absurd rfl hit

/-- Witness for C3 at concrete inputs: a resolver that knows
`regex:num` replaces `\x7bregex:num\x7d`, declines `\x7bother\x7d`
(emitted verbatim), and an unterminated or brace-free literal passes
through unchanged. -/
theorem c3_render_never_fails_witness :
    (litOutput
        (fun n => if n = "regex:num".toList then some ['7'] else Option.none)
        "log_{regex:num}.txt".toList = "log_7.txt".toList) ∧
    (litOutput
        (fun n => if n = "regex:num".toList then some ['7'] else Option.none)
        "a{other}b".toList = "a{other}b".toList) ∧
    (litOutput
        (fun n => if n = "regex:num".toList then some ['7'] else Option.none)
        "plain.txt".toList = "plain.txt".toList) ∧
    (litOutput
        (fun n => if n = "regex:num".toList then some ['7'] else Option.none)
        "un\x7bclosed".toList = "un\x7bclosed".toList) := by
  have h := c3_render_never_fails
  refine ⟨?_, ?_, ?_, ?_⟩
  · have e := h.2.1 (fun n => if n = "regex:num".toList then some ['7']
      else Option.none) "log_".toList "regex:num".toList ".txt".toList
      (by decide) (by decide)
    have e3 := h.2.2.1 (fun n => if n = "regex:num".toList then some ['7']
      else Option.none) ".txt".toList (by decide)
    rw [show ("log_{regex:num}.txt".toList =
      "log_".toList ++ '{' :: ("regex:num".toList ++ '}' :: ".txt".toList))
      from by decide]
    rw [e, e3]
    decide
  · have e := h.2.1 (fun n => if n = "regex:num".toList then some ['7']
      else Option.none) "a".toList "other".toList "b".toList
      (by decide) (by decide)
    have e3 := h.2.2.1 (fun n => if n = "regex:num".toList then some ['7']
      else Option.none) "b".toList (by decide)
    rw [show ("a{other}b".toList =
      "a".toList ++ '{' :: ("other".toList ++ '}' :: "b".toList))
      from by decide]
    rw [e, e3]
    decide
  · exact h.2.2.1 _ "plain.txt".toList (by decide)
  · have e := h.2.2.2.1 (fun n => if n = "regex:num".toList then some ['7']
      else Option.none) "un".toList "closed".toList (by decide) (by decide)
    rw [show ("un\x7bclosed".toList =
      "un".toList ++ '{' :: "closed".toList) from by decide]
    exact e

/-- ASCII digit test: the regex class `\d` as it applies to the inputs
considered here (all ASCII). -/
def isDigitCh (c : Char) : Bool := '0' ≤ c && c ≤ '9'

/-- Strip a literal leading sequence from a character list. -/
def stripLead : List Char → List Char → Option (List Char)
  | [], s => some s
  | _ :: _, [] => Option.none
  | p :: ps, x :: xs => if x = p then stripLead ps xs else Option.none

/-- Match semantics of the source pattern
`^output_log_(?P<in_sec_num>\d+)?\.txt$` named by the claim (the regex
crate is an external library; for this concrete anchored pattern a match
is the literal head `output_log_`, a maximal digit run for the optional
named group — maximality is forced because the following character `.`
is not a digit — then exactly the literal tail `.txt`; the group
participates precisely when the run is nonempty, since `\d+` cannot
match the empty string).  Returns `none` when the name does not match,
otherwise the value of the capture `in_sec_num` (`none` inside when the
group did not participate in the match). -/
def matchOutputLog (s : List Char) : Option (Option (List Char)) :=
  match stripLead "output_log_".toList s with
  | Option.none => Option.none
  | some rest =>
    if rest.dropWhile isDigitCh = ".txt".toList then
      some (if (rest.takeWhile isDigitCh).isEmpty then Option.none
        else some (rest.takeWhile isDigitCh))
    else Option.none

/-- Rust `str::split_once(':')` as used by the resolver closure. -/
def splitOnceColon (s : List Char) : Option (List Char × List Char) :=
  match breakAt ':' s with
  | Option.none => Option.none
  | some (pre, rest) => some (pre, rest.drop 1)

/-- The resolver closure built in `main.rs::move_log_file`: a name of the
form `regex:<group>` always resolves, to the capture's text or to the
empty string when the group did not participate (`unwrap_or("")`); a
name without `:` or with any other namespace resolves to `none`. -/
def regexResolver (captures : List Char → Option (List Char))
    (name : List Char) : Option (List Char) :=
  match splitOnceColon name with
  | Option.none => Option.none
  | some (ns, n) =>
    if ns = "regex".toList then some ((captures n).getD []) else Option.none

/-- Capture lookup for the single named group of the claim's pattern. -/
def inSecNumCaptures (m : Option (List Char)) :
    List Char → Option (List Char) :=
  fun n => if n = "in_sec_num".toList then m else Option.none

/-- End-to-end resolution of the `\x7bregex:in_sec_num\x7d` placeholder
for a candidate file name: `none` when the file name does not match the
source pattern (so `move_log_file` is never invoked and nothing is
resolved), otherwise the text the placeholder renders to. -/
def inSecNumResolution (fname : List Char) : Option (List Char) :=
  (matchOutputLog fname).map fun m =>
    (regexResolver (inSecNumCaptures m) "regex:in_sec_num".toList).getD []

/-- C7 counterexample: the file name `output_log.txt` does not match the
source pattern `^output_log_(?P<in_sec_num>\d+)?\.txt$` at all — the
underscore after `output_log` is mandatory — so the claim that
`\x7bregex:in_sec_num\x7d` resolves to the empty string for it is false:
no resolution ever happens for that name. -/
theorem c7_output_log_txt_does_not_match :
    matchOutputLog "output_log.txt".toList = Option.none ∧
    inSecNumResolution "output_log.txt".toList = Option.none ∧
    inSecNumResolution "output_log.txt".toList ≠ some [] := by
  refine ⟨by decide, by decide, by decide⟩

/-- C7 amended: with the source pattern
`^output_log_(?P<in_sec_num>\d+)?\.txt$`, the name `output_log_5.txt`
resolves `\x7bregex:in_sec_num\x7d` to `"5"`; a matching name whose
optional group did not participate, such as `output_log_.txt`, resolves
it to the empty string (present but empty, never a missing key); the
name `output_log.txt` does not match the pattern, so no resolution
occurs for it. -/
theorem c7_in_sec_num_resolution :
    inSecNumResolution "output_log_5.txt".toList = some ['5'] ∧
    inSecNumResolution "output_log_.txt".toList = some [] ∧
    matchOutputLog "output_log_5.txt".toList = some (some ['5']) ∧
    matchOutputLog "output_log_.txt".toList = some Option.none ∧
    regexResolver (inSecNumCaptures Option.none)
      "regex:in_sec_num".toList = some [] ∧
    matchOutputLog "output_log.txt".toList = Option.none := by
  refine ⟨by decide, by decide, by decide, by decide, by decide, by decide⟩

/-- Civil date-time, chrono `NaiveDateTime` (seconds 0-59; a parsed leap
second is carried in the nanosecond field exactly as chrono stores it). -/
structure NaiveDT where
  year : Int
  month : Nat
  day : Nat
  hour : Nat
  minute : Nat
  second : Nat
  nano : Nat
deriving DecidableEq, Repr

/-- chrono `LocalResult`: the result of interpreting a civil time in a
time zone. -/
inductive LocalResult (α : Type) where
  | none
  | single (a : α)
  | ambiguous (a b : α)
deriving DecidableEq, Repr

/-- chrono `LocalResult::earliest`. -/
def LocalResult.earliest {α : Type} : LocalResult α → Option α
  | .none => Option.none
  | .single a => some a
  | .ambiguous a _ => some a

/-- chrono `Utc::from_local_datetime`, reached through
`NaiveDateTime::and_local_timezone(Utc)` (library boundary): `Utc` is a
fixed zero-offset zone, so chrono's implementation returns
`LocalResult::Single` for every input, never `None` or `Ambiguous`. -/
def utcFromLocal (dt : NaiveDT) : LocalResult NaiveDT := .single dt

/-- UTF-8 continuation byte. -/
def isCont (b : Nat) : Bool := 0x80 ≤ b && b ≤ 0xBF

/-- Rust `str::from_utf8` together with the decoded characters (library
boundary: standard UTF-8 validity — lead/continuation structure, no
overlong forms, no surrogates, nothing above U+10FFFF).  The fuel
argument only makes the recursion structural; each step consumes at
least one byte, so `fuel = length` never runs out. -/
def utf8Go : Nat → List Nat → Option (List Char)
  | 0, [] => some []
  | 0, _ :: _ => Option.none
  | _ + 1, [] => some []
  | fuel + 1, b :: rest =>
    if b ≤ 0x7F then
      match utf8Go fuel rest with
      | some cs => some (Char.ofNat b :: cs)
      | Option.none => Option.none
    else if b < 0xC2 then Option.none
    else if b ≤ 0xDF then
      match rest with
      | c1 :: rest1 =>
        if isCont c1 then
          match utf8Go fuel rest1 with
          | some cs => some (Char.ofNat ((b - 0xC0) * 0x40 + (c1 - 0x80)) :: cs)
          | Option.none => Option.none
        else Option.none
      | [] => Option.none
    else if b ≤ 0xEF then
      match rest with
      | c1 :: c2 :: rest2 =>
        if isCont c1 ∧ isCont c2 ∧ (b = 0xE0 → 0xA0 ≤ c1) ∧
            (b = 0xED → c1 ≤ 0x9F) then
          match utf8Go fuel rest2 with
          | some cs =>
            some (Char.ofNat
              ((b - 0xE0) * 0x1000 + (c1 - 0x80) * 0x40 + (c2 - 0x80)) :: cs)
          | Option.none => Option.none
        else Option.none
      | _ => Option.none
    else if b ≤ 0xF4 then
      match rest with
      | c1 :: c2 :: c3 :: rest3 =>
        if isCont c1 ∧ isCont c2 ∧ isCont c3 ∧ (b = 0xF0 → 0x90 ≤ c1) ∧
            (b = 0xF4 → c1 ≤ 0x8F) then
          match utf8Go fuel rest3 with
          | some cs =>
            some (Char.ofNat
              ((b - 0xF0) * 0x40000 + (c1 - 0x80) * 0x1000 +
                (c2 - 0x80) * 0x40 + (c3 - 0x80)) :: cs)
          | Option.none => Option.none
        else Option.none
      | _ => Option.none
    else Option.none

/-- Rust `str::from_utf8` with the decoded characters. -/
def utf8Decode (bytes : List Nat) : Option (List Char) :=
  utf8Go bytes.length bytes

/-- chrono `scan::number(s, min, max)` (library boundary): consume at
most `max` leading ASCII digits, fail when fewer than `min` are present
or the value overflows an `i64`. -/
def scanNumber (s : List Char) (min max : Nat) : Option (Int × List Char) :=
  let digits := (s.take max).takeWhile isDigitCh
  if digits.length < min then Option.none
  else
    let v : Nat := digits.foldl (fun a c => a * 10 + (c.toNat - 48)) 0
    if v ≤ 9223372036854775807 then some ((v : Int), s.drop digits.length)
    else Option.none

/-- Width and signedness table of chrono's numeric parser (`parse.rs`),
for the field kinds the strftime tokenizer can produce.  `Timestamp`'s
width is `usize::MAX` in the source; any bound exceeding the input
length is equivalent, and inputs here are at most 19 characters. -/
def numericParseSpec : Numeric → Option (Nat × Bool)
  | .Year => some (4, true)
  | .IsoYear => some (4, true)
  | .YearDiv100 => some (2, false)
  | .IsoYearDiv100 => some (2, false)
  | .YearMod100 => some (2, false)
  | .IsoYearMod100 => some (2, false)
  | .Month => some (2, false)
  | .Day => some (2, false)
  | .WeekFromSun => some (2, false)
  | .WeekFromMon => some (2, false)
  | .IsoWeek => some (2, false)
  | .NumDaysFromSun => some (1, false)
  | .WeekdayFromMon => some (1, false)
  | .Ordinal => some (3, false)
  | .Hour => some (2, false)
  | .Hour12 => some (2, false)
  | .Minute => some (2, false)
  | .Second => some (2, false)
  | .Nanosecond => some (9, false)
  | .Timestamp => some (1000000, false)
  | .Internal => Option.none

/-- Numeric scan including the explicit-sign rule of chrono's parser: an
explicit `+`/`-` on a signed field lifts the width limit (`usize::MAX`
in the source; `1000000` exceeds every input here); without a sign the
field's width is respected. -/
def scanSigned (s : List Char) (width : Nat) (signed : Bool) :
    Option (Int × List Char) :=
  if signed then
    match s with
    | '-' :: rest => (scanNumber rest 1 1000000).map (fun vr => (-vr.1, vr.2))
    | '+' :: rest => scanNumber rest 1 1000000
    | _ => scanNumber s 1 width
  else scanNumber s 1 width

/-- The fields of chrono's `Parsed` that the VRC timestamp format can
set. -/
structure Parsed where
  year : Option Int
  month : Option Nat
  day : Option Nat
  hour : Option Nat
  minute : Option Nat
  second : Option Nat
deriving DecidableEq, Repr

/-- The empty `Parsed::new()`. -/
def emptyParsed : Parsed :=
  ⟨Option.none, Option.none, Option.none, Option.none, Option.none,
    Option.none⟩

/-- Store one numeric field with chrono's `set_if_consistent` behaviour
and the `i64`-to-`i32`/`u32` cast checks of the `Parsed::set_*` methods.
Field kinds that the VRC format `%Y.%m.%d %H:%M:%S` cannot contain are
outside the modeled boundary and fail. -/
def setNumeric (p : Parsed) (n : Numeric) (v : Int) : Option Parsed :=
  let setNat : Option Nat → (Option Nat → Parsed) → Option Parsed :=
    fun cur upd =>
      if 0 ≤ v ∧ v ≤ 4294967295 then
        match cur with
        | Option.none => some (upd (some v.toNat))
        | some w => if (w : Int) = v then some (upd (some w)) else Option.none
      else Option.none
  match n with
  | .Year =>
    if -2147483648 ≤ v ∧ v ≤ 2147483647 then
      match p.year with
      | Option.none => some { p with year := some v }
      | some w => if w = v then some p else Option.none
    else Option.none
  | .Month => setNat p.month (fun x => { p with month := x })
  | .Day => setNat p.day (fun x => { p with day := x })
  | .Hour => setNat p.hour (fun x => { p with hour := x })
  | .Minute => setNat p.minute (fun x => { p with minute := x })
  | .Second => setNat p.second (fun x => { p with second := x })
  | _ => Option.none

/-- chrono `format::parse` specialized to the item kinds occurring in the
VRC format `%Y.%m.%d %H:%M:%S` (library boundary): literal items must
match exactly, a `Space` item skips any amount of whitespace, numeric
items skip leading whitespace and scan a bounded digit run; after the
last item the input must be exhausted (`TOO_LONG` otherwise, as in
`NaiveDateTime::parse_from_str`). -/
def chronoParseGo : List Item → List Char → Parsed → Option Parsed
  | [], s, p => if s.isEmpty then some p else Option.none
  | it :: rest, s, p =>
    match it with
    | .Literal l =>
      match stripLead l s with
      | some s2 => chronoParseGo rest s2 p
      | Option.none => Option.none
    | .OwnedLiteral l =>
      match stripLead l s with
      | some s2 => chronoParseGo rest s2 p
      | Option.none => Option.none
    | .Space _ => chronoParseGo rest (s.dropWhile rustWhitespace) p
    | .OwnedSpace _ => chronoParseGo rest (s.dropWhile rustWhitespace) p
    | .Numeric n _ =>
      match numericParseSpec n with
      | Option.none => Option.none
      | some (width, signed) =>
        match scanSigned (s.dropWhile rustWhitespace) width signed with
        | Option.none => Option.none
        | some (v, s2) =>
          match setNumeric p n v with
          | some p2 => chronoParseGo rest s2 p2
          | Option.none => Option.none
    | _ => Option.none

/-- Run the chrono parser from an empty `Parsed`. -/
def chronoParse (items : List Item) (s : List Char) : Option Parsed :=
  chronoParseGo items s emptyParsed

/-- Proleptic-Gregorian leap year. -/
def isLeap (y : Int) : Bool := y % 4 = 0 && (y % 100 ≠ 0 || y % 400 = 0)

/-- Days in a month of the proleptic Gregorian calendar. -/
def daysInMonth (y : Int) (m : Nat) : Nat :=
  if m = 2 then (if isLeap y then 29 else 28)
  else if m = 4 ∨ m = 6 ∨ m = 9 ∨ m = 11 then 30
  else 31

/-- chrono `Parsed::to_naive_datetime_with_offset(0)` for the fields the
VRC format sets (library boundary): all six fields must be present, the
date must exist in the calendar (`NaiveDate::from_ymd_opt`, year within
chrono's representable range), the time must be valid with second 60
accepted as a leap second folded into the nanosecond field. -/
def toNaiveDateTime (p : Parsed) : Option NaiveDT :=
  match p.year, p.month, p.day, p.hour, p.minute, p.second with
  | some y, some mo, some d, some h, some mi, some sec =>
    if -262144 ≤ y ∧ y ≤ 262143 ∧ 1 ≤ mo ∧ mo ≤ 12 ∧ 1 ≤ d ∧
        d ≤ daysInMonth y mo ∧ h ≤ 23 ∧ mi ≤ 59 ∧ sec ≤ 60 then
      if sec = 60 then some ⟨y, mo, d, h, mi, 59, 1000000000⟩
      else some ⟨y, mo, d, h, mi, sec, 0⟩
    else Option.none
  | _, _, _, _, _, _ => Option.none

/-- The item sequence of the fixed format `%Y.%m.%d %H:%M:%S` used by
`assume_launch_time`. -/
def vrcFormatItems : List Item := strftimeItems "%Y.%m.%d %H:%M:%S".toList

/-- Error values of `std::io` surfaced by the embedded functions. -/
inductive IoErr where
  | unexpectedEof
  | invalidData (msg : String)
  | notFound
  | alreadyExists
  | raw (code : Int)
  | generic (tag : Nat)
deriving DecidableEq, Repr

/-- `e.raw_os_error()` of the embedded error values: only errors captured
from a raw OS code report one. -/
def rawOsError : IoErr → Option Int
  | .raw code => some code
  | _ => Option.none

/-- `main.rs::assume_launch_time` over the file's byte content:
`read_exact` of a 19-byte buffer (fails with `UnexpectedEof` on shorter
files), UTF-8 decoding (`invalid utf8` on failure), parsing with the
fixed format `%Y.%m.%d %H:%M:%S` (`invalid VRC log` on failure), and on
success the pair of the zone-aware UTC instant
(`and_local_timezone(Utc).earliest()`) and the civil time. -/
def assume_launch_time (content : List Nat) :
    Except IoErr (Option NaiveDT × NaiveDT) :=
  if content.length < 19 then .error .unexpectedEof
  else
    match utf8Decode (content.take 19) with
    | Option.none => .error (.invalidData "invalid utf8")
    | some chars =>
      match chronoParse vrcFormatItems chars with
      | Option.none => .error (.invalidData "invalid VRC log")
      | some p =>
        match toNaiveDateTime p with
        | Option.none => .error (.invalidData "invalid VRC log")
        | some dt => .ok ((utcFromLocal dt).earliest, dt)

/-- Byte content of an ASCII string. -/
def strBytes (s : String) : List Nat := s.toList.map Char.toNat

/-- C8: content-mode timestamp resolution reads exactly the first 19
bytes (the result depends on nothing else, and fewer than 19 bytes is a
hard `UnexpectedEof` error), decodes them as UTF-8 and parses them with
the fixed format `%Y.%m.%d %H:%M:%S`; a file beginning with
`2022.10.14 20:15:30` resolves to exactly year 2022, month 10, day 14,
hour 20, minute 15, second 30, and any decode or parse failure is a hard
per-file error. -/
theorem c8_assume_launch_time :
    (∀ content : List Nat,
      assume_launch_time content = assume_launch_time (content.take 19)) ∧
    (∀ content : List Nat, content.length < 19 →
      assume_launch_time content = .error .unexpectedEof) ∧
    (assume_launch_time (strBytes "2022.10.14 20:15:30") =
      .ok (some ⟨2022, 10, 14, 20, 15, 30, 0⟩,
        ⟨2022, 10, 14, 20, 15, 30, 0⟩)) ∧
    (assume_launch_time
        (strBytes "2022.10.14 20:15:30 Log        -  [Behaviour] x") =
      .ok (some ⟨2022, 10, 14, 20, 15, 30, 0⟩,
        ⟨2022, 10, 14, 20, 15, 30, 0⟩)) ∧
    (∀ content : List Nat, 19 ≤ content.length →
      utf8Decode (content.take 19) = Option.none →
      assume_launch_time content = .error (.invalidData "invalid utf8")) ∧
    (∀ content chars, 19 ≤ content.length →
      utf8Decode (content.take 19) = some chars →
      chronoParse vrcFormatItems chars = Option.none →
      assume_launch_time content = .error (.invalidData "invalid VRC log")) := by
  refine ⟨?_, ?_, by decide, by decide, ?_, ?_⟩
  · intro content
    rcases Nat.lt_or_ge content.length 19 with h | h
    · rw [List.take_of_length_le (Nat.le_of_lt h)]
    · have h2 : (content.take 19).length = 19 := by
        rw [List.length_take]
        omega
      rw [assume_launch_time, assume_launch_time,
        if_neg (show ¬content.length < 19 by omega),
        if_neg (show ¬(content.take 19).length < 19 by omega),
        List.take_take]
      norm_num
  · intro content h
    rw [assume_launch_time, if_pos h]
  · intro content h hdec
    simp only [assume_launch_time,
      if_neg (show ¬content.length < 19 by omega), hdec]
  · intro content chars h hdec hparse
    simp only [assume_launch_time,
      if_neg (show ¬content.length < 19 by omega), hdec, hparse]

/-- Witness for C8's conditional conjuncts at concrete inputs: the empty
file errs with `UnexpectedEof`; 19 `0xFF` bytes fail UTF-8 decoding; 19
spaces decode but fail the format parse; a long file resolves the same
as its first 19 bytes. -/
theorem c8_assume_launch_time_witness :
    assume_launch_time [] = .error .unexpectedEof ∧
    assume_launch_time (List.replicate 19 0xFF) =
      .error (.invalidData "invalid utf8") ∧
    assume_launch_time (strBytes "                   ") =
      .error (.invalidData "invalid VRC log") ∧
    assume_launch_time (strBytes "2022.10.14 20:15:30xxxx") =
      assume_launch_time ((strBytes "2022.10.14 20:15:30xxxx").take 19) := by
  refine ⟨?_, ?_, ?_, ?_⟩
  · exact (c8_assume_launch_time).2.1 [] (by decide)
  · exact (c8_assume_launch_time).2.2.2.2.1 (List.replicate 19 0xFF)
      (by decide) (by decide)
  · exact (c8_assume_launch_time).2.2.2.2.2 (strBytes "                   ")
      "                   ".toList (by decide) (by decide) (by decide)
  · exact (c8_assume_launch_time).1 (strBytes "2022.10.14 20:15:30xxxx")
/-- File-system model: an association list from path to byte content
(directories are not tracked; `create_dir_all` cannot change any file). -/
def FS := List (String × List Nat)

instance : DecidableEq FS :=
  inferInstanceAs (DecidableEq (List (String × List Nat)))

/-- Look up the content of a path. -/
def fsLookup : FS → String → Option (List Nat)
  | [], _ => Option.none
  | (q, d) :: t, p => if p = q then some d else fsLookup t p

/-- Delete a path. -/
def fsRemove : FS → String → FS
  | [], _ => []
  | (q, d) :: t, p => if q = p then fsRemove t p else (q, d) :: fsRemove t p

/-- Create or overwrite a path with the given content. -/
def fsInsert (fs : FS) (p : String) (d : List Nat) : FS :=
  (p, d) :: fsRemove fs p

theorem fsLookup_remove_ne {fs : FS} {p q : String} (h : p ≠ q) :
    fsLookup (fsRemove fs q) p = fsLookup fs p := by
  induction fs with
  | nil => rfl
  | cons e t ih =>
    obtain ⟨a, b⟩ := e
    by_cases ha : a = q
    · rw [fsRemove, if_pos ha, ih, fsLookup, if_neg (ha ▸ h)]
    · by_cases hp : p = a
      · rw [fsRemove, if_neg ha, fsLookup, if_pos hp, fsLookup, if_pos hp]
      · rw [fsRemove, if_neg ha, fsLookup, if_neg hp, fsLookup, if_neg hp, ih]

theorem fsLookup_remove_self {fs : FS} {p : String} :
    fsLookup (fsRemove fs p) p = Option.none := by
  induction fs with
  | nil => rfl
  | cons e t ih =>
    obtain ⟨a, b⟩ := e
    by_cases ha : a = p
    · rw [fsRemove, if_pos ha, ih]
    · rw [fsRemove, if_neg ha, fsLookup, if_neg (fun hp => ha hp.symm), ih]

theorem fsLookup_insert_self {fs : FS} {p : String} {d : List Nat} :
    fsLookup (fsInsert fs p d) p = some d := by
  rw [fsInsert, fsLookup, if_pos rfl]

theorem fsLookup_insert_ne {fs : FS} {p q : String} {d : List Nat}
    (h : p ≠ q) : fsLookup (fsInsert fs q d) p = fsLookup fs p := by
  rw [fsInsert, fsLookup, if_neg h, fsLookup_remove_ne h]

/-- Environment outcomes for the fallible operations inside
`main.rs::move_file` (`none` means the operation succeeds). -/
structure MoveFileEnv where
  renameRes : Option IoErr
  openFromRes : Option IoErr
  createNewRes : Option IoErr
  copyIoRes : Option IoErr
  flushRes : Option IoErr
  removeRes : Option IoErr
deriving DecidableEq, Repr

/-- `main.rs::move_file::move_by_copy`: open the source for read+write,
create the destination with `create_new` (which fails with
`AlreadyExists` instead of overwriting), copy the content, flush, and
only then remove the source.  Rust `std::fs` primitives are the library
boundary; their effect on the file map is the standard one. -/
def move_by_copy (env : MoveFileEnv) (fs : FS) (fromP toP : String) :
    Except IoErr Unit × FS :=
  match fsLookup fs fromP with
  | Option.none => (.error .notFound, fs)
  | some data =>
    match env.openFromRes with
    | some e => (.error e, fs)
    | Option.none =>
      if (fsLookup fs toP).isSome then (.error .alreadyExists, fs)
      else
        match env.createNewRes with
        | some e => (.error e, fs)
        | Option.none =>
          match env.copyIoRes with
          | some e => (.error e, fsInsert fs toP [])
          | Option.none =>
            match env.flushRes with
            | some e => (.error e, fsInsert fs toP data)
            | Option.none =>
              match env.removeRes with
              | some e => (.error e, fsInsert fs toP data)
              | Option.none =>
                (.ok (), fsRemove (fsInsert fs toP data) fromP)

/-- `main.rs::move_file`: attempt the atomic `fs::rename`; exactly when
the error's raw OS code is 17 (`ERROR_NOT_SAME_DEVICE`), fall back to
`move_by_copy`; propagate every other rename error unchanged. -/
def move_file (env : MoveFileEnv) (fs : FS) (fromP toP : String) :
    Except IoErr Unit × FS :=
  match fsLookup fs fromP with
  | Option.none => (.error .notFound, fs)
  | some data =>
    match env.renameRes with
    | Option.none => (.ok (), fsInsert (fsRemove fs fromP) toP data)
    | some e =>
      if rawOsError e = some 17 then move_by_copy env fs fromP toP
      else (.error e, fs)

/-- The configuration fields `move_log_file` reads. -/
structure Config where
  keepOld : Bool
  fileCtime : Bool
  utcTime : Bool
  outFolder : String
  pattern : List Item

/-- Environment for one `move_log_file` run: outcomes of the fallible
operations (`none` = success), the machine's local time zone
(`DateTime<Local>::from`), and chrono's item formatter
(`format_with_items`, a library call whose output this development
treats as an arbitrary function of the items and the date). -/
structure MoveEnv where
  openProbeOk : Bool
  metadataRes : Option IoErr
  createdRes : Option IoErr
  createdTime : Nat
  localOfSystem : Nat → NaiveDT
  utcOfSystem : Nat → NaiveDT
  createDirRes : Option IoErr
  chronoFormat : List Item → NaiveDT → String
  copyRes : Option IoErr
  openSrcMetaRes : Option IoErr
  openDstRes : Option IoErr
  setFileTimeSuccess : Bool
  lastOsError : IoErr
  mf : MoveFileEnv

/-- Result of `move_log_file`: success, an `io::Result` error, or a Rust
panic (`unwrap` on `None`). -/
inductive Outcome where
  | ok
  | err (e : IoErr)
  | panic
deriving DecidableEq, Repr

/-- Timestamp resolution step of `main.rs::move_log_file` (lines
116-122): in `file_ctime` mode read the filesystem creation time and
convert it to a UTC instant and a local civil time; otherwise call
`assume_launch_time` on the file content. -/
def resolveDates (cfg : Config) (env : MoveEnv) (content : List Nat) :
    Except IoErr (Option NaiveDT × NaiveDT) :=
  if cfg.fileCtime then
    match env.metadataRes with
    | some e => .error e
    | Option.none =>
      match env.createdRes with
      | some e => .error e
      | Option.none =>
        .ok (some (env.utcOfSystem env.createdTime),
          env.localOfSystem env.createdTime)
  else assume_launch_time content

/-- `PathBuf::join` for the relative rendered file name. -/
def pathJoin (folder name : String) : String := folder ++ "/" ++ name

/-- Timestamp-propagation part of the `keep_old` branch of
`main.rs::move_log_file` (lines 158-185): `fs::copy`, re-open source and
destination for metadata, then `SetFileTime`, whose result the source
checks backwards — `success.as_bool()` true returns
`Err(io::Error::last_os_error())`, false falls through to `Ok`. -/
def keepOldCopy (env : MoveEnv) (fs : FS) (dst : String)
    (content : List Nat) : Outcome × FS :=
  match env.copyRes with
  | some e => (.err e, fs)
  | Option.none =>
    match env.openSrcMetaRes with
    | some e => (.err e, fsInsert fs dst content)
    | Option.none =>
      match env.openDstRes with
      | some e => (.err e, fsInsert fs dst content)
      | Option.none =>
        if env.setFileTimeSuccess then
          (.err env.lastOsError, fsInsert fs dst content)
        else (.ok, fsInsert fs dst content)

/-- Relocation decision of `main.rs::move_log_file` once the destination
path `dst` is computed: an existing destination is an already-done
success, otherwise copy (`keep_old`) or move the file. -/
def moveStage (cfg : Config) (env : MoveEnv) (fs : FS) (path : String)
    (content : List Nat) (dst : String) : Outcome × FS :=
  if (fsLookup fs dst).isSome then (.ok, fs)
  else if cfg.keepOld then keepOldCopy env fs dst content
  else
    match move_file env.mf fs path dst with
    | (.ok _, fs2) => (.ok, fs2)
    | (.error e, fs2) => (.err e, fs2)

/-- `main.rs::move_log_file`: probe-open the source (any failure skips
the file with success), resolve the timestamps, ensure the output
directory, render the destination name through the `MatchingIter`
substitution and chrono's formatter (`utc_date.unwrap()` when `utc_time`
is set — a `None` there is a panic), treat an existing destination as
already-done, then copy (`keep_old`, with the `SetFileTime` result check
exactly as written in the source: a *successful* `SetFileTime` returns
`Err(last_os_error())`) or move the file. -/
def move_log_file (cfg : Config) (env : MoveEnv) (fs : FS) (path : String)
    (captures : List Char → Option (List Char)) : Outcome × FS :=
  match fsLookup fs path with
  | Option.none => (.ok, fs)
  | some content =>
    if !env.openProbeOk then (.ok, fs)
    else
      match resolveDates cfg env content with
      | .error e => (.err e, fs)
      | .ok (utcOpt, localDt) =>
        match env.createDirRes with
        | some e => (.err e, fs)
        | Option.none =>
          match (if cfg.utcTime then utcOpt else some localDt) with
          | Option.none => (.panic, fs)
          | some d =>
            moveStage cfg env fs path content
              (pathJoin cfg.outFolder (env.chronoFormat
                (cfg.pattern.map (renderItem (regexResolver captures))) d))

/-- `main.rs::rename_main`'s loop over the matched directory entries:
each file is handed to `move_log_file`; a per-file error is only printed
and the pass continues with the next entry. -/
def rename_pass (cfg : Config) (env : MoveEnv)
    (capturesOf : String → List Char → Option (List Char)) :
    FS → List String → FS
  | fs, [] => fs
  | fs, p :: rest =>
    rename_pass cfg env capturesOf
      (move_log_file cfg env fs p (capturesOf p)).2 rest

/-- Precondition of the C5 claim: the execution of `move_log_file` for
`path` reaches the destination-exists check (probe-open succeeds, the
timestamps resolve, the output directory is ensured) and the computed
destination path already exists in the file system. -/
def c5Pre (cfg : Config) (env : MoveEnv) (fs : FS) (path : String)
    (captures : List Char → Option (List Char)) : Prop :=
  ∃ content utcOpt localDt d,
    fsLookup fs path = some content ∧
    env.openProbeOk = true ∧
    resolveDates cfg env content = .ok (utcOpt, localDt) ∧
    env.createDirRes = Option.none ∧
    (if cfg.utcTime then utcOpt else some localDt) = some d ∧
    (fsLookup fs (pathJoin cfg.outFolder (env.chronoFormat
      (cfg.pattern.map (renderItem (regexResolver captures))) d))).isSome = true

/-- Byte content of the concrete VRChat log prefix used by witnesses. -/
def vrcBytes : List Nat := strBytes "2022.10.14 20:15:30"

/-- The civil timestamp carried by `vrcBytes`. -/
def vrcDT : NaiveDT := ⟨2022, 10, 14, 20, 15, 30, 0⟩

/-- All-success outcomes for `move_file`. -/
def okMoveFileEnv : MoveFileEnv :=
  ⟨Option.none, Option.none, Option.none, Option.none, Option.none,
    Option.none⟩

/-- All-success environment used by concrete witnesses. -/
def okMoveEnv : MoveEnv where
  openProbeOk := true
  metadataRes := Option.none
  createdRes := Option.none
  createdTime := 0
  localOfSystem := fun _ => vrcDT
  utcOfSystem := fun _ => vrcDT
  createDirRes := Option.none
  chronoFormat := fun _ _ => "x.txt"
  copyRes := Option.none
  openSrcMetaRes := Option.none
  openDstRes := Option.none
  setFileTimeSuccess := false
  lastOsError := .generic 0
  mf := okMoveFileEnv

/-- C1: the canonical-form round-trip law fails on the code: the template
string `%0U` (a numeric calendar field with an explicit pad modifier, so
canonical in the claim's sense) is accepted by `parse_pattern` as the
week-from-Sunday field, but `pattern_to_string` renders that field back
as `%0w`, not `%0U` — the serializer in `config.rs` swaps the letters of
the field pairs `%U`/`%w` and `%W`/`%u` relative to the chrono strftime
table its own comment cites. -/
theorem c1_roundtrip_fails_on_week_fields :
    parse_pattern "%0U".toList = some [Item.Numeric .WeekFromSun .zero] ∧
    pattern_to_string [Item.Numeric .WeekFromSun .zero] = .ok "%0w".toList ∧
    "%0w".toList ≠ "%0U".toList ∧
    parse_pattern "%0w".toList = some [Item.Numeric .NumDaysFromSun .zero] ∧
    pattern_to_string [Item.Numeric .NumDaysFromSun .zero] = .ok "%0U".toList := by
  refine ⟨by decide, by decide, by decide, by decide, by decide⟩

/-- C4: parse failure is all-or-nothing.  If normalizing the token stream
of a template yields any `Error` item (structurally invalid token,
unsupported internal field, or disallowed timezone-offset variant), then
`parse_pattern` returns `none`; and whenever `parse_pattern` succeeds,
the result is exactly the normalized token stream of the whole input
with no `Error` in it — no partial template is ever produced. -/
theorem c4_parse_all_or_nothing (t : List Char) :
    (Item.Error ∈ (strftimeItems t).map own_strftime →
      parse_pattern t = Option.none) ∧
    (∀ s, parse_pattern t = some s →
      s = (strftimeItems t).map own_strftime ∧ Item.Error ∉ s) := by
  constructor
  · intro h
    simp only [parse_pattern, if_pos h]
  · intro s hs
    by_cases h : Item.Error ∈ (strftimeItems t).map own_strftime
    · simp only [parse_pattern, if_pos h] at hs
      exact Option.noConfusion hs
    · simp only [parse_pattern, if_neg h, Option.some.injEq] at hs
      exact ⟨hs.symm, hs ▸ h⟩

/-- Witness for C4 at the concrete template `a%zb`: the timezone-offset
variant `%z` normalizes to an `Error` item and the whole template is
rejected. -/
theorem c4_parse_all_or_nothing_witness :
    Item.Error ∈ (strftimeItems "a%zb".toList).map own_strftime ∧
    parse_pattern "a%zb".toList = Option.none :=
  ⟨by decide, (c4_parse_all_or_nothing "a%zb".toList).1 (by decide)⟩

/-- Concrete configuration used by witnesses: keep the original, content
mode, local time, output folder `out`. -/
def cfgKeep : Config := ⟨true, false, false, "out", []⟩

/-- C6: with `keep_original` false, `move_file` first attempts the atomic
rename (success moves the file); an error whose raw OS code is not 17
propagates unchanged with the file system untouched; exactly on the
cross-volume code 17 it falls back to copy-then-delete, in which an
existing destination makes the creation fail without touching anything
(never overwriting), a copy or flush failure leaves the source in place,
and in every outcome the source is absent afterwards only when the
operation succeeded and the destination holds the source's content. -/
theorem c6_move_file_cross_volume (env : MoveFileEnv) (fs : FS)
    (fromP toP : String) (data : List Nat)
    (hsrc : fsLookup fs fromP = some data) (hne : fromP ≠ toP) :
    (env.renameRes = Option.none →
      move_file env fs fromP toP =
        (.ok (), fsInsert (fsRemove fs fromP) toP data)) ∧
    (∀ e, env.renameRes = some e → rawOsError e ≠ some 17 →
      move_file env fs fromP toP = (.error e, fs)) ∧
    (∀ e, env.renameRes = some e → rawOsError e = some 17 →
      (fsLookup fs toP).isSome = true →
      (move_file env fs fromP toP).2 = fs ∧
      ∃ e2, (move_file env fs fromP toP).1 = .error e2) ∧
    (∀ e, env.renameRes = some e → rawOsError e = some 17 →
      (env.copyIoRes ≠ Option.none ∨ env.flushRes ≠ Option.none) →
      fsLookup (move_file env fs fromP toP).2 fromP = some data) ∧
    (fsLookup (move_file env fs fromP toP).2 fromP = Option.none →
      (move_file env fs fromP toP).1 = .ok () ∧
      fsLookup (move_file env fs fromP toP).2 toP = some data) := by
  have hne2 : toP ≠ fromP := fun hh => hne hh.symm
  refine ⟨?_, ?_, ?_, ?_, ?_⟩
  · intro h
    simp only [move_file, hsrc, h]
  · intro e he hraw
    simp only [move_file, hsrc, he, if_neg hraw]
  · intro e he hraw hdst
    simp only [move_file, hsrc, he, if_pos hraw, move_by_copy]
    cases ho : env.openFromRes with
    | some e2 => exact ⟨rfl, e2, rfl⟩
    | none =>
      rw [if_pos hdst]
      exact ⟨rfl, .alreadyExists, rfl⟩
  · intro e he hraw hcf
    simp only [move_file, hsrc, he, if_pos hraw, move_by_copy]
    cases ho : env.openFromRes with
    | some e2 => exact hsrc
    | none =>
      cases hd : (fsLookup fs toP).isSome with
      | true => simp only [if_pos hd]; exact hsrc
      | false =>
        simp only [hd, Bool.false_eq_true, if_false]
        cases hcn : env.createNewRes with
        | some e2 => exact hsrc
        | none =>
          cases hci : env.copyIoRes with
          | some e2 => rw [fsLookup_insert_ne hne]; exact hsrc
          | none =>
            cases hfl : env.flushRes with
            | some e2 => rw [fsLookup_insert_ne hne]; exact hsrc
            | none =>
              rcases hcf with hcf | hcf
              · exact absurd hci hcf
              · exact absurd hfl hcf
  · intro h
    cases hr : env.renameRes with
    | none =>
      rw [move_file, hsrc] at h ⊢
      simp only [hr]
      refine ⟨by simp, ?_⟩
      exact fsLookup_insert_self
    | some e =>
      by_cases hraw : rawOsError e = some 17
      · rw [move_file, hsrc] at h ⊢
        simp only [hr, if_pos hraw, move_by_copy, hsrc] at h ⊢
        cases ho : env.openFromRes with
        | some e2 =>
          simp only [ho] at h
          rw [hsrc] at h
          exact Option.noConfusion h
        | none =>
          simp only [ho] at h ⊢
          cases hd : (fsLookup fs toP).isSome with
          | true =>
            simp only [hd, if_true] at h
            rw [hsrc] at h
            exact Option.noConfusion h
          | false =>
            simp only [hd, Bool.false_eq_true, if_false] at h ⊢
            cases hcn : env.createNewRes with
            | some e2 =>
              simp only [hcn] at h
              rw [hsrc] at h
              exact Option.noConfusion h
            | none =>
              simp only [hcn] at h ⊢
              cases hci : env.copyIoRes with
              | some e2 =>
                simp only [hci] at h
                rw [fsLookup_insert_ne hne, hsrc] at h
                exact Option.noConfusion h
              | none =>
                simp only [hci] at h ⊢
                cases hfl : env.flushRes with
                | some e2 =>
                  simp only [hfl] at h
                  rw [fsLookup_insert_ne hne, hsrc] at h
                  exact Option.noConfusion h
                | none =>
                  simp only [hfl] at h ⊢
                  cases hrm : env.removeRes with
                  | some e2 =>
                    simp only [hrm] at h
                    rw [fsLookup_insert_ne hne, hsrc] at h
                    exact Option.noConfusion h
                  | none =>
                    simp only [hrm]
                    refine ⟨by simp, ?_⟩
                    rw [fsLookup_remove_ne hne2, fsLookup_insert_self]
      · rw [move_file, hsrc] at h ⊢
        simp only [hr, if_neg hraw] at h
        rw [hsrc] at h
        exact Option.noConfusion h

/-- Witness for C6 at concrete inputs: a same-volume rename moves the
file, and after a cross-volume fallback the source is gone and the
destination holds its content. -/
theorem c6_move_file_cross_volume_witness :
    move_file okMoveFileEnv [("a.log", [1, 2])] "a.log" "out/b.log" =
      (.ok (), fsInsert (fsRemove [("a.log", [1, 2])] "a.log")
        "out/b.log" [1, 2]) ∧
    (move_file { okMoveFileEnv with renameRes := some (.raw 17) }
        [("a.log", [1, 2])] "a.log" "out/b.log").1 = .ok () ∧
    fsLookup (move_file { okMoveFileEnv with renameRes := some (.raw 17) }
        [("a.log", [1, 2])] "a.log" "out/b.log").2 "out/b.log" =
      some [1, 2] := by
  refine ⟨?_, ?_, ?_⟩
  · exact (c6_move_file_cross_volume okMoveFileEnv [("a.log", [1, 2])]
      "a.log" "out/b.log" [1, 2] (by decide) (by decide)).1 rfl
  · exact ((c6_move_file_cross_volume
      { okMoveFileEnv with renameRes := some (.raw 17) }
      [("a.log", [1, 2])] "a.log" "out/b.log" [1, 2] (by decide)
      (by decide)).2.2.2.2 (by decide)).1
  · exact ((c6_move_file_cross_volume
      { okMoveFileEnv with renameRes := some (.raw 17) }
      [("a.log", [1, 2])] "a.log" "out/b.log" [1, 2] (by decide)
      (by decide)).2.2.2.2 (by decide)).2

/-- C9: when the exclusive read+write probe open of the source file
fails, `move_log_file` skips the file and returns success with the file
system untouched — the condition is not an error and cannot abort the
pass. -/
theorem c9_locked_file_skipped (cfg : Config) (env : MoveEnv) (fs : FS)
    (path : String) (captures : List Char → Option (List Char))
    (h : env.openProbeOk = false) :
    move_log_file cfg env fs path captures = (.ok, fs) := by
  cases hl : fsLookup fs path with
  | none => simp [move_log_file, hl]
  | some content => simp [move_log_file, hl, h]

/-- Witness for C9: a locked concrete log file is skipped with success. -/
theorem c9_locked_file_skipped_witness :
    move_log_file cfgKeep { okMoveEnv with openProbeOk := false }
      [("log.txt", vrcBytes)] "log.txt" (fun _ => Option.none) =
      (.ok, [("log.txt", vrcBytes)]) :=
  c9_locked_file_skipped cfgKeep _ _ "log.txt" (fun _ => Option.none) rfl

/-- C5: relocation is idempotent.  Whenever a `move_log_file` execution
reaches the destination check and the computed destination path already
exists, the call returns success and the file system is completely
unchanged (nothing copied, moved or deleted); consequently a rename pass
over files all of whose destinations already exist performs no copy or
move at all. -/
theorem c5_destination_exists_idempotent :
    (∀ cfg env fs path captures, c5Pre cfg env fs path captures →
      move_log_file cfg env fs path captures = (.ok, fs)) ∧
    (∀ cfg env capturesOf fs paths,
      (∀ p ∈ paths, c5Pre cfg env fs p (capturesOf p)) →
      rename_pass cfg env capturesOf fs paths = fs) := by
  have h1 : ∀ cfg env fs path captures, c5Pre cfg env fs path captures →
      move_log_file cfg env fs path captures = (.ok, fs) := by
    intro cfg env fs path captures hpre
    obtain ⟨content, utcOpt, localDt, d, hfile, hopen, hdates, hdir,
      hdate, hdst⟩ := hpre
    simp only [move_log_file, moveStage, hfile, hopen, hdates, hdir, hdate,
      hdst, Bool.not_true, Bool.false_eq_true, if_false, if_true]
  refine ⟨h1, ?_⟩
  intro cfg env capturesOf fs paths
  induction paths with
  | nil => intro _; rfl
  | cons p rest ih =>
    intro h
    have e := h1 cfg env fs p (capturesOf p) (h p (List.mem_cons_self p rest))
    rw [rename_pass, e]
    exact ih (fun q hq => h q (List.mem_cons_of_mem p hq))

/-- Witness for C5 at a concrete state whose destination `out/x.txt`
already exists: the call succeeds and changes nothing. -/
theorem c5_destination_exists_idempotent_witness :
    move_log_file cfgKeep okMoveEnv [("out/x.txt", []), ("log.txt", vrcBytes)]
      "log.txt" (fun _ => Option.none) =
      (.ok, [("out/x.txt", []), ("log.txt", vrcBytes)]) :=
  c5_destination_exists_idempotent.1 cfgKeep okMoveEnv _ "log.txt"
    (fun _ => Option.none)
    ⟨vrcBytes, some vrcDT, vrcDT, vrcDT, by decide, rfl, by decide, rfl,
      rfl, by decide⟩

/-- C2: evaluation of the `keep_original` branch at a concrete input on
which every operation succeeds.  The copy is performed (the destination
appears with the source's content), but because `main.rs` checks the
`SetFileTime` result backwards, a *successful* timestamp propagation
makes `move_log_file` return `Err(io::Error::last_os_error())`, while a
*failed* propagation returns `Ok` without logging anything — the
opposite of the claimed best-effort behaviour. -/
theorem c2_keep_original_settime_inverted :
    move_log_file cfgKeep { okMoveEnv with setFileTimeSuccess := true }
      [("log.txt", vrcBytes)] "log.txt" (fun _ => Option.none) =
      (.err (.generic 0), [("out/x.txt", vrcBytes), ("log.txt", vrcBytes)]) ∧
    move_log_file cfgKeep okMoveEnv
      [("log.txt", vrcBytes)] "log.txt" (fun _ => Option.none) =
      (.ok, [("out/x.txt", vrcBytes), ("log.txt", vrcBytes)]) :=
  ⟨by decide, by decide⟩

theorem assume_launch_time_utc_isSome :
    ∀ content r, assume_launch_time content = .ok r → r.1.isSome = true := by
  intro content r h
  rw [assume_launch_time] at h
  split at h
  · exact Except.noConfusion h
  · split at h
    · exact Except.noConfusion h
    · split at h
      · exact Except.noConfusion h
      · split at h
        · exact Except.noConfusion h
        · injection h with h2
          subst h2
          rfl

/-- C10: for every file whose 19-byte prefix parses in content mode, the
zone-aware UTC instant returned by `assume_launch_time` is present
(interpreting a civil time in the fixed-offset UTC zone is always
`Single`), and consequently the `utc_date.unwrap()` in `move_log_file`
can never fire: no execution of `move_log_file` panics. -/
theorem c10_utc_unwrap_never_panics :
    (∀ content r, assume_launch_time content = .ok r →
      r.1.isSome = true) ∧
    (∀ cfg env fs path captures,
      (move_log_file cfg env fs path captures).1 ≠ Outcome.panic) := by
  refine ⟨assume_launch_time_utc_isSome, ?_⟩
  intro cfg env fs path captures
  have hres : ∀ content utcOpt localDt,
      resolveDates cfg env content = .ok (utcOpt, localDt) →
      utcOpt.isSome = true := by
    intro content utcOpt localDt h
    rw [resolveDates] at h
    split at h
    · split at h
      · exact Except.noConfusion h
      · split at h
        · exact Except.noConfusion h
        · injection h with h2
          rw [Prod.mk.injEq] at h2
          rw [← h2.1]
          rfl
    · exact assume_launch_time_utc_isSome content (utcOpt, localDt) h
  have hks : ∀ fs2 dst content2,
      (keepOldCopy env fs2 dst content2).1 ≠ Outcome.panic := by
    intro fs2 dst content2
    rw [keepOldCopy]
    split
    · exact fun hc => Outcome.noConfusion hc
    · split
      · exact fun hc => Outcome.noConfusion hc
      · split
        · exact fun hc => Outcome.noConfusion hc
        · split
          · exact fun hc => Outcome.noConfusion hc
          · exact fun hc => Outcome.noConfusion hc
  have hms : ∀ fs2 content2 dst,
      (moveStage cfg env fs2 path content2 dst).1 ≠ Outcome.panic := by
    intro fs2 content2 dst
    rw [moveStage]
    split
    · exact fun hc => Outcome.noConfusion hc
    · split
      · exact hks fs2 dst content2
      · split
        · exact fun hc => Outcome.noConfusion hc
        · exact fun hc => Outcome.noConfusion hc
  rw [move_log_file]
  split
  · exact fun hc => Outcome.noConfusion hc
  next content hcontent =>
    split
    · exact fun hc => Outcome.noConfusion hc
    · split
      · exact fun hc => Outcome.noConfusion hc
      next utcOpt localDt hres_eq =>
        split
        · exact fun hc => Outcome.noConfusion hc
        · split
          next hnone =>
            by_cases hu : cfg.utcTime
            · rw [if_pos hu] at hnone
              have hs := hres content utcOpt localDt hres_eq
              rw [hnone] at hs
              exact absurd hs (by decide)
            · rw [if_neg hu] at hnone
              exact absurd hnone (by simp)
          next d hd =>
            exact hms fs content _

/-- Witness for C10 at the concrete log prefix: the parsed pair carries a
present UTC instant, and a concrete `move_log_file` run does not
panic. -/
theorem c10_utc_unwrap_never_panics_witness :
    ((some vrcDT, vrcDT) : Option NaiveDT × NaiveDT).1.isSome = true ∧
    (move_log_file cfgKeep okMoveEnv [("log.txt", vrcBytes)] "log.txt"
      (fun _ => Option.none)).1 ≠ Outcome.panic :=
  ⟨c10_utc_unwrap_never_panics.1 vrcBytes (some vrcDT, vrcDT) (by decide),
    c10_utc_unwrap_never_panics.2 cfgKeep okMoveEnv [("log.txt", vrcBytes)]
      "log.txt" (fun _ => Option.none)⟩
